import Mathlib

/-!
# Verification of the `gowork` process supervisor

A shallow embedding of the Go process supervisor (`ProcessManager` in
`main.go`) and proofs about its state machine.

The supervisor owns a single mutable record guarded by a mutex.  Every
critical section of the Go code (the locked body of `Start`, `Stop`,
`GetStatus`, `GetLogs`, and the commit phase of `waitForProcess`) is
modelled as a pure function on the record; the interleaving of those
critical sections with the asynchronous reaper goroutine is modelled by a
small-step transition function on a system state that also tracks the
live reaper goroutines.  OS-level outcomes (spawn success, signal
delivery, the child's exit) are external inputs, so they appear as
parameters of the corresponding operations.
-/

/-- `ProcessStatus` from the source: the possible states of the managed
process (`not_started`, `running`, `success`, `failed`). -/
inductive ProcessStatus where
  | notStarted
  | running
  | success
  | failed
deriving DecidableEq, Repr

/-- A value of `Cmd` models one `*exec.Cmd` allocated by `exec.Command`
inside `Start`.  `runId` models pointer identity: each call of
`exec.Command` yields a fresh object, so each run's command is
distinguishable from every other run's. -/
structure Cmd where
  runId : Nat
deriving DecidableEq, Repr

/-- `ProcessManager` from the source: the mutex-guarded record.  The Go
field `cmd *exec.Cmd` is a nullable pointer, hence `Option Cmd` (the zero
value `nil` is `none`).  `logBuffer` is the `bytes.Buffer` holding the
combined stdout/stderr output, modelled as its byte contents. -/
structure ProcessManager where
  executablePath : String
  args : List String
  cmd : Option Cmd
  status : ProcessStatus
  logBuffer : List UInt8
deriving DecidableEq, Repr

/-- `NewProcessManager` from the source: only `executablePath`, `args`
and `status = StatusNotStarted` are set; `cmd` and `logBuffer` keep their
Go zero values (`nil` pointer, empty buffer). -/
def NewProcessManager (executablePath : String) (args : List String) :
    ProcessManager :=
  { executablePath := executablePath
  , args := args
  , cmd := none
  , status := ProcessStatus.notStarted
  , logBuffer := [] }

/-- Outcome of a `Start` call: which `return` of the Go function was
taken.  `alreadyRunning` and `spawnFailed` are the two error returns
(`"process is already running"` and
`"failed to start process: ..."`); `ok` is the `nil` return, the only
path on which `go pm.waitForProcess()` spawns a reaper goroutine. -/
inductive StartOutcome where
  | alreadyRunning
  | spawnFailed
  | ok
deriving DecidableEq, Repr

/-- The locked body of `Start` from the source.  `newCmd` is the fresh
`*exec.Cmd` produced by `exec.Command`; `spawnOk` is whether the OS-level
`cmd.Start()` succeeds (an external input).  Mirrors the code line by
line: the already-running guard returns first with nothing changed;
otherwise `pm.cmd` is assigned and `pm.logBuffer.Reset()` runs before
`cmd.Start()` is attempted, so both happen even when the spawn then
fails; on spawn failure `status` becomes `failed`, on success `running`. -/
def Start (pm : ProcessManager) (newCmd : Cmd) (spawnOk : Bool) :
    ProcessManager × StartOutcome :=
  if pm.status = ProcessStatus.running then
    (pm, StartOutcome.alreadyRunning)
  else
    let pm1 := { pm with cmd := some newCmd, logBuffer := [] }
    if spawnOk then
      ({ pm1 with status := ProcessStatus.running }, StartOutcome.ok)
    else
      ({ pm1 with status := ProcessStatus.failed }, StartOutcome.spawnFailed)

/-- Result of `cmd.Wait()` as discriminated by `waitForProcess`:
`exitZero` is the `err == nil` case (clean exit with code 0);
`exitNonZero` and `signalDeath` are the `*exec.ExitError` cases; `waitError`
is any other wait error. -/
inductive WaitResult where
  | exitZero
  | exitNonZero (code : Int)
  | signalDeath
  | waitError
deriving DecidableEq, Repr

/-- The locked commit phase of `waitForProcess` from the source: after
`pm.cmd.Wait()` returns, the status becomes `success` exactly when the
wait returned no error, and `failed` in every other case.  Note that the
code writes only `pm.status`; in particular `pm.cmd` is left untouched. -/
def reapCommit (pm : ProcessManager) (w : WaitResult) : ProcessManager :=
  match w with
  | WaitResult.exitZero => { pm with status := ProcessStatus.success }
  | WaitResult.exitNonZero _ => { pm with status := ProcessStatus.failed }
  | WaitResult.signalDeath => { pm with status := ProcessStatus.failed }
  | WaitResult.waitError => { pm with status := ProcessStatus.failed }

/-- The process handle that the reaper goroutine waits on.  In the source
the goroutine body begins with `err := pm.cmd.Wait()`: it dereferences
the shared `cmd` field of the record at the moment this statement
executes, rather than using a handle captured when the goroutine was
spawned. -/
def implReadTarget (pm : ProcessManager) : Option Cmd :=
  pm.cmd

/-- Modelled from the spec: the spec asserts the implementation ensures
the reaper only commits for its own run "by capturing the handle at spawn
time rather than re-reading the shared field".  Under that mechanism the
handle the reaper waits on is determined by the run it was spawned for,
independently of the record's current contents. -/
def specCapturedTarget (spawnedFor : Nat) : Option Cmd :=
  some { runId := spawnedFor }

/-- Result of a `Stop` call: which `return` of the Go function was taken.
`notRunningError` is the `"process is not running"` return, taken before
`pm.cmd.Process.Signal` is ever reached, so no signal is attempted;
`signalError` is the `"failed to send SIGTERM"` return (delivery was
attempted and failed); `signalSent` is the `nil` return after successful
SIGTERM delivery. -/
inductive StopResult where
  | notRunningError
  | signalError
  | signalSent
deriving DecidableEq, Repr

/-- The locked body of `Stop` from the source.  `signalOk` is whether the
OS-level `Signal(syscall.SIGTERM)` call succeeds (an external input).
No branch of the Go function writes any field of the record. -/
def Stop (pm : ProcessManager) (signalOk : Bool) :
    ProcessManager × StopResult :=
  if pm.status ≠ ProcessStatus.running then
    (pm, StopResult.notRunningError)
  else if signalOk then
    (pm, StopResult.signalSent)
  else
    (pm, StopResult.signalError)

/-- `GetStatus` from the source: a pure read of `pm.status`. -/
def GetStatus (pm : ProcessManager) : ProcessStatus :=
  pm.status

/-- `GetLogs` from the source: a pure read of the bytes accumulated in
`pm.logBuffer` (the Go method renders them via `logBuffer.String()`). -/
def GetLogs (pm : ProcessManager) : List UInt8 :=
  pm.logBuffer

/-- The control-flow position of one live reaper goroutine
(`go pm.waitForProcess()`).  `spawned forRun` is a goroutine that has
been created by the `Start` of run `forRun` but has not yet executed its
first statement `err := pm.cmd.Wait()`; `waiting forRun target` is one
that has executed that statement, reading `target` from the shared `cmd`
field, and is now blocked in `Wait`.  `forRun` is ghost bookkeeping
recording which run's `Start` spawned the goroutine; the goroutine's code
has no such parameter. -/
inductive ReaperPhase where
  | spawned (forRun : Nat)
  | waiting (forRun : Nat) (target : Option Cmd)
deriving DecidableEq, Repr

/-- The run a reaper goroutine was spawned for (ghost). -/
def ReaperPhase.run : ReaperPhase → Nat
  | ReaperPhase.spawned forRun => forRun
  | ReaperPhase.waiting forRun _ => forRun

/-- The whole system: the shared record plus the multiset of live reaper
goroutines.  `nextRun` is ghost bookkeeping handing out fresh `runId`s to
model that `exec.Command` allocates a fresh `*exec.Cmd` on every call. -/
structure SysState where
  pm : ProcessManager
  reapers : List ReaperPhase
  nextRun : Nat
deriving DecidableEq, Repr

/-- The system state at supervisor construction: a fresh record and no
reaper goroutines. -/
def initState (executablePath : String) (args : List String) : SysState :=
  { pm := NewProcessManager executablePath args
  , reapers := []
  , nextRun := 0 }

/-- One atomic step of the system.  Each constructor is one critical
section (the mutex serializes them) or one unsynchronized action of a
reaper goroutine:
* `start spawnOk`: a full `Start` call;
* `reaperRead i`: the `i`-th live reaper goroutine executes
  `err := pm.cmd.Wait()`, reading the shared `cmd` field now;
* `reaperCommit i w`: the `i`-th live reaper goroutine, whose `Wait`
  returned `w`, runs the locked commit of `waitForProcess` and exits;
* `output bs`: the running child writes `bs` to stdout or stderr and the
  `io.MultiWriter` appends it to `logBuffer` (possible only while a child
  is live, i.e. status is `running`; `cmd.Wait` only returns after all
  output has been copied, so no output step can follow the commit);
* `stop sigOk`: a full `Stop` call. -/
inductive Event where
  | start (spawnOk : Bool)
  | reaperRead (i : Nat)
  | reaperCommit (i : Nat) (w : WaitResult)
  | output (bs : List UInt8)
  | stop (sigOk : Bool)
deriving DecidableEq, Repr

/-- The transition function: `step s e = some s'` when event `e` can fire
in state `s`, yielding `s'`; `none` when it cannot (no such reaper
goroutine, or output without a live child). -/
def step (s : SysState) : Event → Option SysState
  | Event.start spawnOk =>
      let r := Start s.pm { runId := s.nextRun } spawnOk
      some { pm := r.fst
           , reapers :=
               s.reapers ++
                 (if r.snd = StartOutcome.ok then
                    [ReaperPhase.spawned s.nextRun]
                  else [])
           , nextRun := s.nextRun + 1 }
  | Event.reaperRead i =>
      match s.reapers[i]? with
      | some (ReaperPhase.spawned forRun) =>
          some { s with reapers :=
                   (s.reapers.set i
                     (ReaperPhase.waiting forRun (implReadTarget s.pm))) }
      | _ => none
  | Event.reaperCommit i w =>
      match s.reapers[i]? with
      | some (ReaperPhase.waiting _ _) =>
          some { s with pm := reapCommit s.pm w
                      , reapers := s.reapers.eraseIdx i }
      | _ => none
  | Event.output bs =>
      if s.pm.status = ProcessStatus.running then
        some { s with pm :=
                 { s.pm with logBuffer := s.pm.logBuffer ++ bs } }
      else none
  | Event.stop sigOk =>
      some { s with pm := (Stop s.pm sigOk).fst }

/-- Run a list of events from a state. -/
def exec (s : SysState) : List Event → Option SysState
  | [] => some s
  | e :: es =>
      match step s e with
      | some s' => exec s' es
      | none => none

/-- The states the system can reach from supervisor construction. -/
inductive Reachable (s0 : SysState) : SysState → Prop
  | refl : Reachable s0 s0
  | tail {s s' : SysState} {e : Event} :
      Reachable s0 s → step s e = some s' → Reachable s0 s'

/-- Result of running `main`: `usageError` is the `log.Fatal` on a
missing positional argument, `fatalConfigError` is the `log.Fatalf` when
`os.Stat` reports the executable path does not exist (taken before the
manager is created and before `http.ListenAndServe` runs), and
`serving pm` is reaching the handler registration and
`http.ListenAndServe` with manager state `pm`. -/
inductive MainResult where
  | usageError
  | fatalConfigError
  | serving (pm : ProcessManager)
deriving DecidableEq, Repr

/-- `main` from the source, up to the point the HTTP server starts.
`fsExists` abstracts the file system (`os.Stat` + `os.IsNotExist`);
`spawnOk` is whether the initial spawn succeeds.  The initial
`manager.Start()` error is only logged (`log.Printf`), not fatal, so the
program proceeds to serve either way. -/
def runMain (fsExists : String → Bool) (argv : List String)
    (spawnOk : Bool) : MainResult :=
  match argv with
  | [] => MainResult.usageError
  | executablePath :: executableArgs =>
      if fsExists executablePath = false then
        MainResult.fatalConfigError
      else
        let manager := NewProcessManager executablePath executableArgs
        let r := Start manager { runId := 0 } spawnOk
        MainResult.serving r.fst

/-- Consistency of one live reaper goroutine with the shared record: a
reaper spawned for run `forRun` finds run `forRun`'s command in the
shared `cmd` field, and once it has performed its read, the handle it
waits on is that same command. -/
def ReaperOk (s : SysState) : ReaperPhase → Prop
  | ReaperPhase.spawned forRun => s.pm.cmd = some { runId := forRun }
  | ReaperPhase.waiting forRun target =>
      s.pm.cmd = some { runId := forRun } ∧ target = some { runId := forRun }

/-- The system invariant: while the status is `running` exactly one
reaper goroutine is live, in any other status none is (the status stays
`running` from a successful spawn until that run's reaper commits, and
only the commit removes the goroutine), and every live reaper is
consistent with the shared record. -/
def SysInv (s : SysState) : Prop :=
  (s.pm.status = ProcessStatus.running → s.reapers.length = 1) ∧
  (s.pm.status ≠ ProcessStatus.running → s.reapers = []) ∧
  ∀ r ∈ s.reapers, ReaperOk s r

theorem Start_of_running {pm : ProcessManager} (newCmd : Cmd)
    (spawnOk : Bool) (h : pm.status = ProcessStatus.running) :
    Start pm newCmd spawnOk = (pm, StartOutcome.alreadyRunning) := by
  simp [Start, h]

theorem Stop_fst (pm : ProcessManager) (signalOk : Bool) :
    (Stop pm signalOk).fst = pm := by
  unfold Stop
  split
  · rfl
  · split <;> rfl

theorem sysInv_init (executablePath : String) (args : List String) :
    SysInv (initState executablePath args) := by
  refine ⟨?_, ?_, ?_⟩ <;> simp [initState, NewProcessManager, SysInv]

theorem sysInv_step {s s' : SysState} {e : Event} (hI : SysInv s)
    (h : step s e = some s') : SysInv s' := by
  obtain ⟨h1, h2, h3⟩ := hI
  cases e with
  | start spawnOk =>
      simp only [step] at h
      by_cases hr : s.pm.status = ProcessStatus.running
      · rw [Start_of_running _ _ hr] at h
        simp only [Option.some.injEq] at h
        subst h
        refine ⟨?_, ?_, ?_⟩
        · intro _; simpa using h1 hr
        · intro hc; exact absurd hr hc
        · intro r hrm
          simp at hrm
          exact h3 r hrm
      · have hre : s.reapers = [] := h2 hr
        simp only [Start, if_neg hr] at h
        cases spawnOk with
        | true =>
            simp at h
            subst h
            refine ⟨?_, ?_, ?_⟩
            · intro _; simp [hre]
            · intro hc; exact absurd rfl hc
            · intro r hrm
              simp [hre] at hrm
              subst hrm
              rfl
        | false =>
            simp at h
            subst h
            refine ⟨?_, ?_, ?_⟩
            · intro hc; simp at hc
            · intro _; simp [hre]
            · intro r hrm
              simp [hre] at hrm
  | reaperRead i =>
      simp only [step] at h
      cases hget : s.reapers[i]? with
      | none => rw [hget] at h; exact absurd h (by simp)
      | some r0 =>
          rw [hget] at h
          cases r0 with
          | waiting forRun target => exact absurd h (by simp)
          | spawned forRun =>
              simp only [Option.some.injEq] at h
              subst h
              have hmem : ReaperPhase.spawned forRun ∈ s.reapers :=
                List.mem_iff_getElem?.mpr ⟨i, hget⟩
              have hcmd : s.pm.cmd = some { runId := forRun } := h3 _ hmem
              have hrun : s.pm.status = ProcessStatus.running := by
                by_contra hc
                rw [h2 hc] at hmem
                exact absurd hmem (List.not_mem_nil _)
              refine ⟨?_, ?_, ?_⟩
              · intro _; simpa using h1 hrun
              · intro hc; exact absurd hrun hc
              · intro r hrm
                rcases List.mem_or_eq_of_mem_set hrm with hold | hnew
                · exact h3 r hold
                · subst hnew
                  exact ⟨hcmd, by simp [implReadTarget, hcmd]⟩
  | reaperCommit i w =>
      simp only [step] at h
      cases hget : s.reapers[i]? with
      | none => rw [hget] at h; exact absurd h (by simp)
      | some r0 =>
          rw [hget] at h
          cases r0 with
          | spawned forRun => exact absurd h (by simp)
          | waiting forRun target =>
              simp only [Option.some.injEq] at h
              subst h
              have hmem : ReaperPhase.waiting forRun target ∈ s.reapers :=
                List.mem_iff_getElem?.mpr ⟨i, hget⟩
              have hrun : s.pm.status = ProcessStatus.running := by
                by_contra hc
                rw [h2 hc] at hmem
                exact absurd hmem (List.not_mem_nil _)
              obtain ⟨a, ha⟩ := List.length_eq_one.mp (h1 hrun)
              have hi0 : i = 0 := by
                by_contra hi
                rw [ha] at hget
                cases i with
                | zero => exact hi rfl
                | succ n => simp at hget
              have hterm : (reapCommit s.pm w).status ≠ ProcessStatus.running := by
                cases w <;> simp [reapCommit]
              refine ⟨?_, ?_, ?_⟩
              · intro hc; exact absurd hc hterm
              · intro _; simp [ha, hi0]
              · intro r hrm
                simp [ha, hi0] at hrm
  | output bs =>
      simp only [step] at h
      by_cases hr : s.pm.status = ProcessStatus.running
      · rw [if_pos hr] at h
        simp only [Option.some.injEq] at h
        subst h
        exact ⟨fun _ => h1 hr, fun hc => absurd hr hc, fun r hrm => h3 r hrm⟩
      · rw [if_neg hr] at h
        exact absurd h (by simp)
  | stop sigOk =>
      simp only [step, Stop_fst, Option.some.injEq] at h
      subst h
      exact ⟨h1, h2, h3⟩

theorem sysInv_reachable {s0 s : SysState} (h0 : SysInv s0)
    (h : Reachable s0 s) : SysInv s := by
  induction h with
  | refl => exact h0
  | tail _ hstep ih => exact sysInv_step ih hstep

theorem Reachable.head {s0 s1 s : SysState} {e : Event}
    (hstep : step s0 e = some s1) (h : Reachable s1 s) : Reachable s0 s := by
  induction h with
  | refl => exact Reachable.tail Reachable.refl hstep
  | tail _ hstep' ih => exact Reachable.tail ih hstep'

theorem reachable_of_exec {es : List Event} :
    ∀ {s0 s : SysState}, exec s0 es = some s → Reachable s0 s := by
  induction es with
  | nil =>
      intro s0 s h
      simp only [exec, Option.some.injEq] at h
      subst h
      exact Reachable.refl
  | cons e es ih =>
      intro s0 s h
      simp only [exec] at h
      cases hstep : step s0 e with
      | none => rw [hstep] at h; exact absurd h (by simp)
      | some s1 =>
          rw [hstep] at h
          exact Reachable.head hstep (ih h)

theorem Start_false_snd (pm : ProcessManager) (newCmd : Cmd) :
    (Start pm newCmd false).snd ≠ StartOutcome.ok := by
  unfold Start
  split
  · simp
  · simp

theorem logBuffer_after_outputs :
    ∀ (bss : List (List UInt8)) (s s' : SysState),
      s.pm.status = ProcessStatus.running →
      exec s (bss.map Event.output) = some s' →
      s'.pm.logBuffer = s.pm.logBuffer ++ bss.flatten ∧
        s'.pm.status = ProcessStatus.running := by
  intro bss
  induction bss with
  | nil =>
      intro s s' hr h
      simp only [List.map_nil, exec, Option.some.injEq] at h
      subst h
      simp [hr]
  | cons bs bss ih =>
      intro s s' hr h
      simp only [List.map_cons, exec, step, if_pos hr] at h
      obtain ⟨hl, hs⟩ :=
        ih { s with pm := { s.pm with logBuffer := s.pm.logBuffer ++ bs } }
          s' hr h
      refine ⟨?_, hs⟩
      rw [hl]
      simp

/-- The system state reached from a fresh supervisor for the worker
after one successful `Start` (run 0), before the reaper goroutine has
executed its first statement. -/
def sRunning0 : SysState :=
  { pm := { executablePath := "worker", args := [], cmd := some { runId := 0 },
            status := ProcessStatus.running, logBuffer := [] }
  , reapers := [ReaperPhase.spawned 0]
  , nextRun := 1 }

/-- `sRunning0` after the reaper goroutine has read the shared `cmd`
field and blocked in `Wait`. -/
def sWaiting0 : SysState :=
  { pm := { executablePath := "worker", args := [], cmd := some { runId := 0 },
            status := ProcessStatus.running, logBuffer := [] }
  , reapers := [ReaperPhase.waiting 0 (some { runId := 0 })]
  , nextRun := 1 }

/-- `sWaiting0` after the child exited with code 0 and the reaper
committed: terminal status `success`, yet `cmd` still holds run 0's
handle because `waitForProcess` never writes the `cmd` field. -/
def sDone0 : SysState :=
  { pm := { executablePath := "worker", args := [], cmd := some { runId := 0 },
            status := ProcessStatus.success, logBuffer := [] }
  , reapers := []
  , nextRun := 1 }

/-- C1, counterexample: a reachable terminal state retains the handle.
Starting the worker (run 0) and letting its reaper commit a clean exit
leads to status `success` with `cmd` still holding run 0's command: the
reaper commit does not clear the handle, so "no terminal or not-started
state retains a handle" fails on the code. -/
theorem c1_counterexample :
    exec (initState "worker" [])
        [Event.start true, Event.reaperRead 0,
         Event.reaperCommit 0 WaitResult.exitZero] = some sDone0 ∧
      sDone0.pm.status = ProcessStatus.success ∧
      sDone0.pm.cmd = some { runId := 0 } := by
  refine ⟨by decide, rfl, rfl⟩

/-- C1, amended: in every reachable state, `status = running` does imply
that the handle is non-null and refers to the current, not-yet-reaped
run (there is exactly one live reaper goroutine and it belongs to the
run the handle names); but the converse direction of the claimed iff
fails, because the reaper leaves the handle in place when it commits
(see the counterexample). -/
theorem c1_running_handle (executablePath : String) (args : List String)
    (s : SysState) (hs : Reachable (initState executablePath args) s)
    (hr : s.pm.status = ProcessStatus.running) :
    ∃ forRun, s.pm.cmd = some { runId := forRun } ∧
      ∃ r, s.reapers = [r] ∧ ReaperPhase.run r = forRun := by
  obtain ⟨h1, h2, h3⟩ := sysInv_reachable (sysInv_init executablePath args) hs
  obtain ⟨r, hrr⟩ := List.length_eq_one.mp (h1 hr)
  have hmem : r ∈ s.reapers := by
    rw [hrr]; exact List.mem_singleton_self r
  have hok := h3 r hmem
  cases r with
  | spawned fr => exact ⟨fr, hok, ReaperPhase.spawned fr, hrr, rfl⟩
  | waiting fr t => exact ⟨fr, hok.1, ReaperPhase.waiting fr t, hrr, rfl⟩

/-- Witness for the amended C1 theorem at the concrete reachable state
`sRunning0`. -/
theorem c1_running_handle_witness :
    ∃ forRun, sRunning0.pm.cmd = some { runId := forRun } ∧
      ∃ r, sRunning0.reapers = [r] ∧ ReaperPhase.run r = forRun :=
  c1_running_handle "worker" [] sRunning0
    (reachable_of_exec
      (by decide :
        exec (initState "worker" []) [Event.start true] = some sRunning0))
    rfl

/-- C2, counterexample to the claimed mechanism: the implementation does
not capture the run's handle at spawn time — the reaper goroutine's
first statement `err := pm.cmd.Wait()` re-reads the shared `cmd` field.
Concretely, a reaper spawned for run 0 that performs its read in a state
whose shared field meanwhile holds run 1's command ends up waiting on
run 1's handle, not on the handle of the run it was spawned for, which
is what the spec-described capture mechanism would yield. -/
theorem c2_counterexample :
    implReadTarget
        { executablePath := "worker", args := [], cmd := some { runId := 1 },
          status := ProcessStatus.running, logBuffer := [] } ≠
      specCapturedTarget 0 ∧
      step { pm := { executablePath := "worker", args := [],
                     cmd := some { runId := 1 },
                     status := ProcessStatus.running, logBuffer := [] }
           , reapers := [ReaperPhase.spawned 0], nextRun := 2 }
          (Event.reaperRead 0) =
        some { pm := { executablePath := "worker", args := [],
                       cmd := some { runId := 1 },
                       status := ProcessStatus.running, logBuffer := [] }
             , reapers := [ReaperPhase.waiting 0 (some { runId := 1 })]
             , nextRun := 2 } := by
  refine ⟨by decide, by decide⟩

/-- C2, amended: the stale-reaper overwrite cannot happen, but for a
different reason than the claim states.  In every reachable state, a
reaper goroutine blocked in `Wait` is waiting on exactly the handle of
the run it was spawned for, and that handle is still the content of the
shared field; moreover the status is still `running`, so no concurrent
`Start` can succeed (and hence reuse the record) while the reaper is
pending.  The mechanism is this status guard, not a spawn-time capture:
`waitForProcess` re-reads the shared `cmd` field. -/
theorem c2_reaper_own_run (executablePath : String) (args : List String)
    (s : SysState) (hs : Reachable (initState executablePath args) s)
    (i forRun : Nat) (target : Option Cmd)
    (hw : s.reapers[i]? = some (ReaperPhase.waiting forRun target)) :
    target = some { runId := forRun } ∧
      implReadTarget s.pm = some { runId := forRun } ∧
      s.pm.status = ProcessStatus.running := by
  obtain ⟨h1, h2, h3⟩ := sysInv_reachable (sysInv_init executablePath args) hs
  have hmem := List.mem_iff_getElem?.mpr ⟨i, hw⟩
  have hok := h3 _ hmem
  have hrun : s.pm.status = ProcessStatus.running := by
    by_contra hc
    rw [h2 hc] at hmem
    exact absurd hmem (List.not_mem_nil _)
  exact ⟨hok.2, hok.1, hrun⟩

/-- Witness for the amended C2 theorem at the concrete reachable state
`sWaiting0`. -/
theorem c2_reaper_own_run_witness :
    some { runId := 0 } = some ({ runId := 0 } : Cmd) ∧
      implReadTarget sWaiting0.pm = some { runId := 0 } ∧
      sWaiting0.pm.status = ProcessStatus.running :=
  c2_reaper_own_run "worker" [] sWaiting0
    (reachable_of_exec
      (by decide :
        exec (initState "worker" []) [Event.start true, Event.reaperRead 0] =
          some sWaiting0))
    0 0 (some { runId := 0 }) rfl

/-- C3: calling `Start` while the status is `running` fails with the
"already running" error and leaves the whole record — in particular
`status`, `cmd` and `logBuffer` — exactly as it was. -/
theorem c3_start_already_running (pm : ProcessManager) (newCmd : Cmd)
    (spawnOk : Bool) (h : pm.status = ProcessStatus.running) :
    Start pm newCmd spawnOk = (pm, StartOutcome.alreadyRunning) ∧
      (Start pm newCmd spawnOk).fst.status = pm.status ∧
      (Start pm newCmd spawnOk).fst.cmd = pm.cmd ∧
      (Start pm newCmd spawnOk).fst.logBuffer = pm.logBuffer := by
  have h0 := Start_of_running newCmd spawnOk h
  exact ⟨h0, by rw [h0], by rw [h0], by rw [h0]⟩

/-- A concrete record in the `running` state with a non-trivial handle
and log, used to witness the `Start`/`Stop` guard theorems. -/
def pmRunningW : ProcessManager :=
  { executablePath := "worker", args := ["-v"], cmd := some { runId := 3 },
    status := ProcessStatus.running, logBuffer := [104, 105] }

/-- Witness for C3 at the concrete record `pmRunningW`. -/
theorem c3_start_already_running_witness :
    Start pmRunningW { runId := 4 } true =
        (pmRunningW, StartOutcome.alreadyRunning) ∧
      (Start pmRunningW { runId := 4 } true).fst.status = pmRunningW.status ∧
      (Start pmRunningW { runId := 4 } true).fst.cmd = pmRunningW.cmd ∧
      (Start pmRunningW { runId := 4 } true).fst.logBuffer =
        pmRunningW.logBuffer :=
  c3_start_already_running pmRunningW { runId := 4 } true rfl

/-- C5: calling `Stop` while the status is not `running` (whether
`notStarted`, `success` or `failed`) fails with the "not running" error,
attempts no signal delivery (the Go function returns before reaching
`pm.cmd.Process.Signal`), and leaves the record unchanged. -/
theorem c5_stop_not_running (pm : ProcessManager) (signalOk : Bool)
    (h : pm.status ≠ ProcessStatus.running) :
    Stop pm signalOk = (pm, StopResult.notRunningError) ∧
      (Stop pm signalOk).snd ≠ StopResult.signalSent ∧
      (Stop pm signalOk).snd ≠ StopResult.signalError := by
  have h0 : Stop pm signalOk = (pm, StopResult.notRunningError) := by
    simp [Stop, h]
  refine ⟨h0, by rw [h0]; simp, by rw [h0]; simp⟩

/-- A concrete record in a terminal state, used to witness the `Stop`
guard theorem. -/
def pmFailedW : ProcessManager :=
  { executablePath := "worker", args := [], cmd := some { runId := 7 },
    status := ProcessStatus.failed, logBuffer := [97] }

/-- Witness for C5 at the concrete record `pmFailedW`. -/
theorem c5_stop_not_running_witness :
    Stop pmFailedW true = (pmFailedW, StopResult.notRunningError) ∧
      (Stop pmFailedW true).snd ≠ StopResult.signalSent ∧
      (Stop pmFailedW true).snd ≠ StopResult.signalError :=
  c5_stop_not_running pmFailedW true (by decide)

/-- C6: calling `Stop` while the status is `running` never changes any
field of the record — the status stays `running` both after a successful
SIGTERM delivery (the reaper alone performs the terminal transition) and
after a failed delivery, where the error is returned to the caller. -/
theorem c6_stop_running_preserves (pm : ProcessManager) (signalOk : Bool)
    (h : pm.status = ProcessStatus.running) :
    (Stop pm signalOk).fst = pm ∧
      (Stop pm signalOk).fst.status = ProcessStatus.running ∧
      (signalOk = false → (Stop pm signalOk).snd = StopResult.signalError) ∧
      (signalOk = true → (Stop pm signalOk).snd = StopResult.signalSent) := by
  have hs := Stop_fst pm signalOk
  refine ⟨hs, by rw [hs]; exact h, ?_, ?_⟩ <;>
    intro hb <;> subst hb <;> simp [Stop, h]

/-- Witness for C6 at the concrete record `pmRunningW`, with a failing
signal delivery. -/
theorem c6_stop_running_preserves_witness :
    (Stop pmRunningW false).fst = pmRunningW ∧
      (Stop pmRunningW false).fst.status = ProcessStatus.running ∧
      (false = false → (Stop pmRunningW false).snd = StopResult.signalError) ∧
      (false = true → (Stop pmRunningW false).snd = StopResult.signalSent) :=
  c6_stop_running_preserves pmRunningW false rfl

/-- C4: from a `running` state, the reaper's commit is the only step
that moves the status to a terminal state, and that commit sets
`success` exactly when `Wait` reported a clean exit with code 0
(`err == nil`) and `failed` in every other case (non-zero exit, signal
death, or wait error). -/
theorem c4_reaper_commit_terminal (s s' : SysState) (e : Event)
    (hstep : step s e = some s')
    (hrun : s.pm.status = ProcessStatus.running) :
    ((s'.pm.status = ProcessStatus.success ∨
        s'.pm.status = ProcessStatus.failed) →
       ∃ i w, e = Event.reaperCommit i w) ∧
    (∀ i w, e = Event.reaperCommit i w →
       ((s'.pm.status = ProcessStatus.success ↔ w = WaitResult.exitZero) ∧
        (s'.pm.status = ProcessStatus.failed ↔ w ≠ WaitResult.exitZero))) := by
  cases e with
  | start spawnOk =>
      simp only [step] at hstep
      rw [Start_of_running _ _ hrun] at hstep
      simp only [Option.some.injEq] at hstep
      subst hstep
      refine ⟨?_, fun i w hw => Event.noConfusion hw⟩
      intro hterm
      exfalso
      rcases hterm with h | h <;>
        exact ProcessStatus.noConfusion (hrun.symm.trans h)
  | reaperRead i =>
      simp only [step] at hstep
      cases hget : s.reapers[i]? with
      | none => rw [hget] at hstep; exact absurd hstep (by simp)
      | some r0 =>
          rw [hget] at hstep
          cases r0 with
          | waiting fr t => exact absurd hstep (by simp)
          | spawned fr =>
              simp only [Option.some.injEq] at hstep
              subst hstep
              refine ⟨?_, fun i' w hw => Event.noConfusion hw⟩
              intro hterm
              exfalso
              rcases hterm with h | h <;>
                exact ProcessStatus.noConfusion (hrun.symm.trans h)
  | reaperCommit i w =>
      simp only [step] at hstep
      cases hget : s.reapers[i]? with
      | none => rw [hget] at hstep; exact absurd hstep (by simp)
      | some r0 =>
          rw [hget] at hstep
          cases r0 with
          | spawned fr => exact absurd hstep (by simp)
          | waiting fr t =>
              simp only [Option.some.injEq] at hstep
              subst hstep
              refine ⟨fun _ => ⟨i, w, rfl⟩, ?_⟩
              intro i' w' hw
              injection hw with hi hw'
              subst hi
              subst hw'
              cases w <;> simp [reapCommit]
  | output bs =>
      simp only [step, if_pos hrun, Option.some.injEq] at hstep
      subst hstep
      refine ⟨?_, fun i w hw => Event.noConfusion hw⟩
      intro hterm
      exfalso
      rcases hterm with h | h <;>
        exact ProcessStatus.noConfusion (hrun.symm.trans h)
  | stop sigOk =>
      simp only [step, Stop_fst, Option.some.injEq] at hstep
      subst hstep
      refine ⟨?_, fun i w hw => Event.noConfusion hw⟩
      intro hterm
      exfalso
      rcases hterm with h | h <;>
        exact ProcessStatus.noConfusion (hrun.symm.trans h)

/-- Witness for C4 at the concrete commit step from `sWaiting0` with a
clean exit. -/
theorem c4_reaper_commit_terminal_witness :
    ((sDone0.pm.status = ProcessStatus.success ∨
        sDone0.pm.status = ProcessStatus.failed) →
       ∃ i w, Event.reaperCommit 0 WaitResult.exitZero =
         Event.reaperCommit i w) ∧
    (∀ i w, Event.reaperCommit 0 WaitResult.exitZero =
        Event.reaperCommit i w →
       ((sDone0.pm.status = ProcessStatus.success ↔
           w = WaitResult.exitZero) ∧
        (sDone0.pm.status = ProcessStatus.failed ↔
           w ≠ WaitResult.exitZero))) :=
  c4_reaper_commit_terminal sWaiting0 sDone0
    (Event.reaperCommit 0 WaitResult.exitZero) (by decide) rfl

/-- C7: a `Start` whose OS-level spawn fails sets the status to `failed`
and reports the start error to its caller; the reaper list is unchanged
(no reaper goroutine is scheduled, since only the `ok` outcome spawns
one); and the supervisor itself keeps running — `main` merely logs the
initial start error and still reaches the serving stage. -/
theorem c7_spawn_failure (pm : ProcessManager) (newCmd : Cmd)
    (hnr : pm.status ≠ ProcessStatus.running) (s : SysState)
    (fsExists : String → Bool) (p : String) (rest : List String)
    (hfs : fsExists p = true) :
    Start pm newCmd false =
        ({ pm with cmd := some newCmd, logBuffer := [], status := ProcessStatus.failed },
         StartOutcome.spawnFailed) ∧
      (∀ s', step s (Event.start false) = some s' →
        s'.reapers = s.reapers) ∧
      runMain fsExists (p :: rest) false =
        MainResult.serving
          { NewProcessManager p rest with
              cmd := some { runId := 0 }, logBuffer := [], status := ProcessStatus.failed } := by
  refine ⟨by simp [Start, hnr], ?_, ?_⟩
  · intro s' h
    simp only [step] at h
    rw [if_neg (Start_false_snd s.pm { runId := s.nextRun })] at h
    simp only [List.append_nil, Option.some.injEq] at h
    subst h
    rfl
  · simp [runMain, hfs, Start, NewProcessManager]

/-- Witness for C7 at a concrete not-running record, a concrete system
state, and a file system containing the worker. -/
theorem c7_spawn_failure_witness :
    Start (NewProcessManager "worker" []) { runId := 0 } false =
        ({ NewProcessManager "worker" [] with
             cmd := some { runId := 0 }, logBuffer := [], status := ProcessStatus.failed },
         StartOutcome.spawnFailed) ∧
      (∀ s', step (initState "worker" []) (Event.start false) = some s' →
        s'.reapers = (initState "worker" []).reapers) ∧
      runMain (fun _ => true) ("worker" :: []) false =
        MainResult.serving
          { NewProcessManager "worker" [] with
              cmd := some { runId := 0 }, logBuffer := [], status := ProcessStatus.failed } :=
  c7_spawn_failure (NewProcessManager "worker" []) { runId := 0 }
    (by decide) (initState "worker" []) (fun _ => true) "worker" [] rfl

/-- C8: `Start` resets the combined log (the Go code calls
`pm.logBuffer.Reset()` on every accepted `Start`), so `GetLogs`
immediately after a successful `Start` is empty regardless of what a
previous run left in the buffer, and after the child produces the byte
chunks `bss` (in order, before the reaper commits — `cmd.Wait` only
returns once all output has been copied) `GetLogs` returns exactly their
concatenation: only the current run's output, never merged with a
previous run's. -/
theorem c8_logs_exactly_current_run (s : SysState)
    (hnr : s.pm.status ≠ ProcessStatus.running)
    (s1 : SysState) (h1 : step s (Event.start true) = some s1)
    (bss : List (List UInt8)) (s2 : SysState)
    (h2 : exec s1 (bss.map Event.output) = some s2) :
    GetLogs s1.pm = [] ∧ GetLogs s2.pm = bss.flatten := by
  simp only [step, Start, if_neg hnr] at h1
  simp at h1
  subst h1
  refine ⟨rfl, ?_⟩
  obtain ⟨hl, _⟩ := logBuffer_after_outputs bss _ s2 rfl h2
  simpa [GetLogs] using hl

/-- A system state holding a completed earlier run whose log is
non-empty, used to show that a new `Start` does not merge the old run's
output into the new log. -/
def sOldRun : SysState :=
  { pm := { executablePath := "worker", args := [], cmd := some { runId := 0 },
            status := ProcessStatus.failed, logBuffer := [120, 121] }
  , reapers := []
  , nextRun := 1 }

/-- `sOldRun` after a new successful `Start` (run 1): the log is reset. -/
def sRestarted : SysState :=
  { pm := { executablePath := "worker", args := [], cmd := some { runId := 1 },
            status := ProcessStatus.running, logBuffer := [] }
  , reapers := [ReaperPhase.spawned 1]
  , nextRun := 2 }

/-- `sRestarted` after the child wrote the chunks `[104]` and
`[105, 106]`. -/
def sWithOutput : SysState :=
  { pm := { executablePath := "worker", args := [], cmd := some { runId := 1 },
            status := ProcessStatus.running, logBuffer := [104, 105, 106] }
  , reapers := [ReaperPhase.spawned 1]
  , nextRun := 2 }

/-- Witness for C8: restarting over `sOldRun` (whose buffer still holds
two bytes of the old run) yields an empty log, and after the child
writes three bytes in two chunks the log is exactly those three bytes. -/
theorem c8_logs_exactly_current_run_witness :
    GetLogs sRestarted.pm = [] ∧
      GetLogs sWithOutput.pm = [[104], [105, 106]].flatten :=
  c8_logs_exactly_current_run sOldRun (by decide) sRestarted (by decide)
    [[104], [105, 106]] sWithOutput (by decide)

/-- C9: when the executable path does not exist, `main` hits the
`log.Fatalf` guard: the result is the fatal configuration error, which
is reached before `NewProcessManager` and before `http.ListenAndServe`,
so no supervisor is created and the control port is never opened (the
run never reaches the `serving` stage). -/
theorem c9_missing_executable (fsExists : String → Bool) (p : String)
    (rest : List String) (spawnOk : Bool) (hfs : fsExists p = false) :
    runMain fsExists (p :: rest) spawnOk = MainResult.fatalConfigError ∧
      ∀ pm, runMain fsExists (p :: rest) spawnOk ≠ MainResult.serving pm := by
  have h : runMain fsExists (p :: rest) spawnOk =
      MainResult.fatalConfigError := by
    simp [runMain, hfs]
  refine ⟨h, fun pm hc => ?_⟩
  rw [h] at hc
  exact MainResult.noConfusion hc

/-- Witness for C9 on a file system with no files at all. -/
theorem c9_missing_executable_witness :
    runMain (fun _ => false) ("missing" :: []) true =
        MainResult.fatalConfigError ∧
      ∀ pm, runMain (fun _ => false) ("missing" :: []) true ≠
        MainResult.serving pm :=
  c9_missing_executable (fun _ => false) "missing" [] true rfl

/-- C10: when the executable path exists, the record is constructed in
the `notStarted` state, `main` then calls `Start` once before reaching
the serving stage, so the manager state at the serving stage is exactly
the result of that initial `Start`, and the first status observable via
`GetStatus` is `running` on a successful spawn or `failed` on a failed
one — never `notStarted`. -/
theorem c10_initial_start (fsExists : String → Bool) (p : String)
    (rest : List String) (spawnOk : Bool) (hfs : fsExists p = true) :
    (NewProcessManager p rest).status = ProcessStatus.notStarted ∧
      runMain fsExists (p :: rest) spawnOk =
        MainResult.serving
          (Start (NewProcessManager p rest) { runId := 0 } spawnOk).fst ∧
      ∀ pm, runMain fsExists (p :: rest) spawnOk = MainResult.serving pm →
        GetStatus pm =
            (if spawnOk then ProcessStatus.running else ProcessStatus.failed) ∧
          GetStatus pm ≠ ProcessStatus.notStarted := by
  have h : runMain fsExists (p :: rest) spawnOk =
      MainResult.serving
        (Start (NewProcessManager p rest) { runId := 0 } spawnOk).fst := by
    simp [runMain, hfs]
  refine ⟨rfl, h, fun pm hpm => ?_⟩
  rw [h] at hpm
  injection hpm with hpm
  subst hpm
  cases spawnOk <;> simp [Start, NewProcessManager, GetStatus]

/-- Witness for C10 with the worker present and a successful spawn. -/
theorem c10_initial_start_witness :
    (NewProcessManager "worker" []).status = ProcessStatus.notStarted ∧
      runMain (fun _ => true) ("worker" :: []) true =
        MainResult.serving
          (Start (NewProcessManager "worker" []) { runId := 0 } true).fst ∧
      ∀ pm, runMain (fun _ => true) ("worker" :: []) true =
          MainResult.serving pm →
        GetStatus pm =
            (if true then ProcessStatus.running else ProcessStatus.failed) ∧
          GetStatus pm ≠ ProcessStatus.notStarted :=
  c10_initial_start (fun _ => true) "worker" [] true rfl
